import Mathlib

/-!
Verification of the tabular-result decoding layer of go-hdb
(`internal/protocol/result.go`): the result-set identifier part, the
column-descriptor (result field) decoder, the two-phase result-metadata
decoder with its offset-keyed name table, and the result-data part.

The byte-stream primitives (`bufio.Reader`/`bufio.Writer`), the name
table (`fieldNames`), the short-string reader and the type-code
classification predicates are external collaborators of the file under
study; they are modelled from the specification at their interface
boundary, as noted on each definition.
-/

namespace Hdb

/-- Modelled from the spec: the Byte Cursor, a forward-only sequential
reader over a byte buffer with a sticky first-error state.  `data` is the
underlying byte list, `pos` the cursor position, `err` the sticky error
flag (set on the first short read and never cleared). -/
structure Reader where
  data : List Nat
  pos : Nat
  err : Bool
deriving DecidableEq

/-- Modelled from the spec: read one byte; on a read past the end the
sticky error is set and a zero value is returned (every later read also
returns zero without moving the cursor). -/
def Reader.readByte (rd : Reader) : Nat × Reader :=
  if rd.err then (0, rd)
  else
    match rd.data.drop rd.pos with
    | [] => (0, { rd with err := true })
    | b :: _ => (b, { rd with pos := rd.pos + 1 })

/-- Modelled from the spec: read `n` consecutive bytes. -/
def Reader.readBytes : Nat → Reader → List Nat × Reader
  | 0, rd => ([], rd)
  | n + 1, rd =>
    let p := rd.readByte
    let q := Reader.readBytes n p.2
    (p.1 :: q.1, q.2)

/-- Modelled from the spec: skip (read and discard) `n` bytes; a skip past
the end of the buffer sets the sticky error. -/
def Reader.skip (n : Nat) (rd : Reader) : Reader :=
  (rd.readBytes n).2

/-- Interpret one byte as a signed 8-bit value. -/
def byteToInt8 (b : Nat) : Int :=
  if b < 128 then (b : Int) else (b : Int) - 256

/-- Interpret two bytes (most significant first) as a signed 16-bit value. -/
def bytesToInt16 (b0 b1 : Nat) : Int :=
  if b0 * 256 + b1 < 32768 then ((b0 * 256 + b1 : Nat) : Int)
  else ((b0 * 256 + b1 : Nat) : Int) - 65536

/-- Assemble a byte list (most significant first) into an unsigned value. -/
def bytesToNatBE (l : List Nat) : Nat :=
  l.foldl (fun a b => a * 256 + b) 0

/-- Split a value into `n` bytes, most significant first. -/
def natToBytesBE : Nat → Nat → List Nat
  | 0, _ => []
  | n + 1, v => natToBytesBE n (v / 256) ++ [v % 256]

/-- Modelled from the spec: fixed-width signed 8-bit read of the Byte Cursor. -/
def Reader.readInt8 (rd : Reader) : Int × Reader :=
  let p := rd.readByte
  (byteToInt8 p.1, p.2)

/-- Modelled from the spec: fixed-width signed 16-bit read of the Byte Cursor. -/
def Reader.readInt16 (rd : Reader) : Int × Reader :=
  let p := rd.readByte
  let q := p.2.readByte
  (bytesToInt16 p.1 q.1, q.2)

/-- Modelled from the spec: fixed-width unsigned 32-bit read of the Byte Cursor. -/
def Reader.readUint32 (rd : Reader) : Nat × Reader :=
  let p := rd.readBytes 4
  (bytesToNatBE p.1, p.2)

/-- Modelled from the spec: fixed-width unsigned 64-bit read of the Byte Cursor. -/
def Reader.readUint64 (rd : Reader) : Nat × Reader :=
  let p := rd.readBytes 8
  (bytesToNatBE p.1, p.2)

/-- Modelled from the spec: the Byte Cursor's write side, an append-only
byte buffer. -/
structure Writer where
  data : List Nat
deriving DecidableEq

/-- Modelled from the spec: fixed-width unsigned 64-bit write. -/
def Writer.writeUint64 (wr : Writer) (v : Nat) : Writer :=
  ⟨wr.data ++ natToBytesBE 8 (v % 2 ^ 64)⟩

/-- Modelled from the spec: the length-prefixed short-string read
(`readShortUtf8` in the source): one length byte, then that many bytes of
text; returns the text bytes and the declared length. -/
def readShortUtf8 (rd : Reader) : List Nat × Nat × Reader :=
  let p := rd.readByte
  let q := p.2.readBytes p.1
  (q.1, p.1, q.2)

/-- Modelled from the spec: the Name Table (`fieldNames` in the source), a
deduplicating store of identifier strings keyed by byte offset; `offsets`
are the registered pending keys, `entries` the resolved strings (as byte
lists). -/
structure FieldNames where
  offsets : List Nat
  entries : List (Nat × List Nat)
deriving DecidableEq

/-- Modelled from the spec: register an offset as a pending key; duplicate
registrations collapse. -/
def FieldNames.addOffset (names : FieldNames) (o : Nat) : FieldNames :=
  if o ∈ names.offsets then names else { names with offsets := names.offsets ++ [o] }

/-- Modelled from the spec: the registered offsets sorted ascending. -/
def FieldNames.sortOffsets (names : FieldNames) : List Nat :=
  List.insertionSort (· ≤ ·) names.offsets

/-- Modelled from the spec: store the resolved string for an offset. -/
def FieldNames.setName (names : FieldNames) (o : Nat) (b : List Nat) : FieldNames :=
  { names with entries := (o, b) :: names.entries }

/-- Modelled from the spec: look an offset up; a key never collected or not
yet resolved yields the empty string. -/
def FieldNames.name (names : FieldNames) (o : Nat) : List Nat :=
  (names.entries.lookup o).getD []

/-- Column options (`columnOptions`, a signed byte in the source). -/
def coMandatory : Int := 0x01

/-- Column option value marking a nullable column. -/
def coOptional : Int := 0x02

/-- One column's metadata (`resultField` in the source): options byte, type
code, fraction, length, and the four name-table offsets in the order
table name, schema name, column name, column display name. -/
structure ResultField where
  columnOptions : Int
  tc : Int
  fraction : Int
  length : Int
  offsets : List Nat
deriving DecidableEq

/-- Modelled from the spec: the Type Code collaborator's classification
predicates, `is_variable_length` and `is_decimal_type`. -/
structure TypeCodeClass where
  isVariableLength : Int → Bool
  isDecimalType : Int → Bool

/-- `resultField.TypeLength` from the source: the declared length when the
type code is variable-length, otherwise not applicable. -/
def ResultField.TypeLength (cls : TypeCodeClass) (f : ResultField) : Int × Bool :=
  if cls.isVariableLength f.tc then (f.length, true) else (0, false)

/-- `resultField.TypePrecisionScale` from the source: length and fraction
when the type code is a decimal type, otherwise not applicable. -/
def ResultField.TypePrecisionScale (cls : TypeCodeClass) (f : ResultField) : Int × Int × Bool :=
  if cls.isDecimalType f.tc then (f.length, f.fraction, true) else (0, 0, false)

/-- `resultField.Nullable` from the source: strict equality with the
OPTIONAL option value. -/
def ResultField.Nullable (f : ResultField) : Bool :=
  f.columnOptions == coOptional

/-- A large-object byte stream (stands for the `io.Reader` attached to
LOB columns). -/
abbrev LobStream := List Nat

/-- `resultField.lobReader` from the source: no reader available. -/
def ResultField.lobReader (f : ResultField) : Option LobStream :=
  none

/-- `resultField.SetLobReader` from the source: always fails with a
capability error and leaves the field unchanged. -/
def ResultField.SetLobReader (f : ResultField) (r : LobStream) :
    ResultField × Except String Unit :=
  (f, Except.error "result field does not support lob readers")

/-- `resultField.read` from the source: one signed byte of options, one
signed byte of type code, a signed 16-bit fraction, a signed 16-bit
length, two skipped filler bytes, then four unsigned 32-bit offsets each
registered with the shared Name Table, in the order table, schema,
column, display name. -/
def ResultField.read (names : FieldNames) (rd : Reader) :
    ResultField × FieldNames × Reader :=
  let a := rd.readInt8
  let b := a.2.readInt8
  let c := b.2.readInt16
  let d := c.2.readInt16
  let rd5 := d.2.skip 2
  let o1 := rd5.readUint32
  let o2 := o1.2.readUint32
  let o3 := o2.2.readUint32
  let o4 := o3.2.readUint32
  (⟨a.1, b.1, c.1, d.1, [o1.1, o2.1, o3.1, o4.1]⟩,
    (((names.addOffset o1.1).addOffset o2.1).addOffset o3.1).addOffset o4.1,
    o4.2)

/-- Phase 1 of `resultMetadata.read` from the source: decode `numArg`
column descriptors in input order, accumulating name-table registrations. -/
def readFields : Nat → FieldNames → Reader → List ResultField × FieldNames × Reader
  | 0, names, rd => ([], names, rd)
  | n + 1, names, rd =>
    let p := ResultField.read names rd
    let q := readFields n p.2.1 p.2.2
    (p.1 :: q.1, q.2)

/-- One step of phase 2 of `resultMetadata.read` from the source: the
skip distance is the unsigned 32-bit difference `offset - pos` converted
to a (64-bit) signed integer, a skip happens when it is positive, then one
short string is read, stored under the offset, and the unsigned 32-bit
position counter advances by one plus the declared string length. -/
def resolveStep (st : FieldNames × Nat × Reader) (offset : Nat) :
    FieldNames × Nat × Reader :=
  let diff := (offset % 4294967296 + (4294967296 - st.2.1 % 4294967296)) % 4294967296
  let rd1 := if 0 < diff then st.2.2.skip diff else st.2.2
  let r := readShortUtf8 rd1
  (st.1.setName offset r.1, (st.2.1 + 1 + r.2.1) % 4294967296, r.2.2)

/-- Phase 2 of `resultMetadata.read` from the source: fold the resolution
step over the registered offsets in ascending order, starting with
position counter 0. -/
def resolveNames (names : FieldNames) (rd : Reader) : FieldNames × Nat × Reader :=
  names.sortOffsets.foldl resolveStep (names, 0, rd)

/-- One resolution step as the specification words it: if the offset
exceeds the running position, skip the difference; read one
length-prefixed short string; store it keyed by the offset; advance the
position by one plus the length just read. -/
def resolveStepClaim (st : FieldNames × Nat × Reader) (offset : Nat) :
    FieldNames × Nat × Reader :=
  let rd1 := if st.2.1 < offset then st.2.2.skip (offset - st.2.1) else st.2.2
  let r := readShortUtf8 rd1
  (st.1.setName offset r.1, st.2.1 + 1 + r.2.1, r.2.2)

/-- Name resolution as the specification words it: visit the registered
offsets sorted ascending with a running position counter starting at 0. -/
def resolveNamesClaim (names : FieldNames) (rd : Reader) : FieldNames × Nat × Reader :=
  names.sortOffsets.foldl resolveStepClaim (names, 0, rd)

/-- The well-formedness the server's contiguous ascending string layout
guarantees: along the resolution pass, every visited offset is an
unsigned 32-bit value at or beyond the running position (so no offset
falls behind the cursor). -/
def stepsOk : Nat → Reader → List Nat → Bool
  | _, _, [] => true
  | pos, rd, o :: os =>
    decide (pos ≤ o) && decide (o < 4294967296) &&
      (let rd1 := if pos < o then rd.skip (o - pos) else rd
       let r := readShortUtf8 rd1
       stepsOk (pos + 1 + r.2.1) r.2.2 os)

/-- `resultMetadata.read` from the source: phase 1 then phase 2, returning
the decoded fields, the resolved Name Table, the final cursor, and the
cursor's sticky error state (`return rd.GetError()`). -/
def resultMetadata.read (numArg : Nat) (names : FieldNames) (rd : Reader) :
    (List ResultField × FieldNames × Reader) × Bool :=
  let p := readFields numArg names rd
  let q := resolveNames p.2.1 p.2.2
  ((p.1, q.1, q.2.2), q.2.2.err)

/-- The result-set identifier part (`resultsetID` in the source), holding
one unsigned 64-bit cursor handle. -/
structure ResultsetID where
  id : Nat
deriving DecidableEq

/-- `resultsetID.numArg` from the source: always 1. -/
def ResultsetID.numArg (s : ResultsetID) : Int :=
  1

/-- `resultsetID.setNumArg` from the source: ignored, always 1. -/
def ResultsetID.setNumArg (s : ResultsetID) (n : Int) : ResultsetID :=
  s

/-- `resultsetID.read` from the source: read one unsigned 64-bit value,
overwrite the held handle, and return the cursor's sticky error state
(`return rd.GetError()`). -/
def ResultsetID.read (s : ResultsetID) (rd : Reader) : ResultsetID × Reader × Bool :=
  let p := rd.readUint64
  (⟨p.1⟩, p.2, p.2.err)

/-- `resultsetID.write` from the source: write the held handle; never
fails (`return nil`). -/
def ResultsetID.write (s : ResultsetID) (wr : Writer) : Writer × Option String :=
  (wr.writeUint64 s.id, none)

/-- `resultset.read` from the source, parametric in the Row-Value
collaborator `g` (`fieldValues.read`, which is outside the file under
study): delegate, and surface the delegate's error unchanged. -/
def resultset.read (g : Nat → List ResultField → Reader → Reader × Bool)
    (numArg : Nat) (fields : List ResultField) (rd : Reader) : Reader × Bool :=
  let p := g numArg fields rd
  if p.2 then (p.1, true) else (p.1, false)

/-! Helper lemmas about the Byte Cursor model. -/

theorem Reader.readBytes_ok (n : Nat) :
    ∀ rd : Reader, rd.err = false → rd.pos + n ≤ rd.data.length →
      (rd.readBytes n).2 = ⟨rd.data, rd.pos + n, false⟩ := by
  induction n with
  | zero =>
    intro rd he _
    cases rd with
    | mk d p e => cases he; rfl
  | succ n ih =>
    intro rd he hlen
    have hlendrop : (rd.data.drop rd.pos).length = rd.data.length - rd.pos :=
      List.length_drop _ _
    have hd : rd.data.drop rd.pos ≠ [] := by
      intro h
      rw [h] at hlendrop
      simp at hlendrop
      omega
    match hmatch : rd.data.drop rd.pos with
    | [] => exact absurd hmatch hd
    | b :: tl =>
      have hb : rd.readByte = (b, { rd with pos := rd.pos + 1 }) := by
        simp [Reader.readByte, he, hmatch]
      have hrec := ih { rd with pos := rd.pos + 1 } he (by simp; omega)
      simp only [Reader.readBytes, hb]
      rw [hrec]
      simp [Reader.mk.injEq]
      omega

theorem Reader.readBytes_exact :
    ∀ (l : List Nat) (rest data : List Nat) (p : Nat),
      data.drop p = l ++ rest →
      Reader.readBytes l.length ⟨data, p, false⟩ = (l, ⟨data, p + l.length, false⟩) := by
  intro l
  induction l with
  | nil => intro rest data p _; simp [Reader.readBytes]
  | cons b l ih =>
    intro rest data p h
    have hb : Reader.readByte ⟨data, p, false⟩ = (b, ⟨data, p + 1, false⟩) := by
      simp [Reader.readByte, h]
    have hdrop : data.drop (p + 1) = l ++ rest := by
      have h1 : data.drop (p + 1) = (data.drop p).drop 1 := by
        rw [List.drop_drop]
      rw [h1, h]
      rfl
    have hrec := ih rest data (p + 1) hdrop
    show Reader.readBytes (l.length + 1) ⟨data, p, false⟩ = _
    simp only [Reader.readBytes, hb]
    rw [hrec]
    simp [Reader.mk.injEq]
    omega

theorem natToBytesBE_length : ∀ (n v : Nat), (natToBytesBE n v).length = n := by
  intro n
  induction n with
  | zero => intro v; rfl
  | succ n ih => intro v; simp [natToBytesBE, ih]

theorem bytesToNatBE_append_single (l : List Nat) (b : Nat) :
    bytesToNatBE (l ++ [b]) = bytesToNatBE l * 256 + b := by
  simp [bytesToNatBE, List.foldl_append]

theorem bytesToNatBE_roundtrip : ∀ (n v : Nat), v < 256 ^ n →
    bytesToNatBE (natToBytesBE n v) = v := by
  intro n
  induction n with
  | zero =>
    intro v hv
    interval_cases v
    rfl
  | succ n ih =>
    intro v hv
    have hdiv : v / 256 < 256 ^ n := by
      rw [Nat.div_lt_iff_lt_mul (by norm_num : 0 < 256)]
      calc v < 256 ^ (n + 1) := hv
        _ = 256 ^ n * 256 := by rw [pow_succ]
    simp only [natToBytesBE, bytesToNatBE_append_single, ih _ hdiv]
    omega

/-! Claim theorems. -/

/-- C5 counterexample: the claim's second equivalence ("reports not
nullable if and only if the options byte is MANDATORY") is false on the
code: the descriptor with options byte 0x03 reports not nullable although
its options byte is not MANDATORY. -/
theorem C5_counterexample :
    ¬ (∀ f : ResultField,
        (f.Nullable = true ↔ f.columnOptions = coOptional) ∧
        (f.Nullable = false ↔ f.columnOptions = coMandatory)) := by
  intro h
  have h2 := (h ⟨3, 0, 0, 0, []⟩).2.mp (by decide)
  exact absurd h2 (by decide)

/-- C5 amended: a field reports nullable exactly when its options byte is
OPTIONAL (0x02); a MANDATORY (0x01) options byte reports not nullable
(as does every other non-OPTIONAL value). -/
theorem C5_nullable_options (f : ResultField) :
    (f.Nullable = true ↔ f.columnOptions = coOptional) ∧
    (f.columnOptions = coMandatory → f.Nullable = false) := by
  constructor
  · simp [ResultField.Nullable]
  · intro h
    simp [ResultField.Nullable, h, coMandatory, coOptional]

/-- C5 witness: the amended statement evaluated on a MANDATORY field. -/
theorem C5_nullable_options_witness :
    (⟨1, 0, 0, 0, []⟩ : ResultField).Nullable = false :=
  (C5_nullable_options ⟨1, 0, 0, 0, []⟩).2 rfl

/-- C6: whenever the variable-length predicate rejects the type code,
TypeLength is not applicable, and whenever the decimal predicate rejects
it, TypePrecisionScale is not applicable, regardless of the raw length
and fraction values in the descriptor. -/
theorem C6_not_applicable (cls : TypeCodeClass) (f : ResultField) :
    (cls.isVariableLength f.tc = false → f.TypeLength cls = (0, false)) ∧
    (cls.isDecimalType f.tc = false → f.TypePrecisionScale cls = (0, 0, false)) := by
  constructor
  · intro h
    simp [ResultField.TypeLength, h]
  · intro h
    simp [ResultField.TypePrecisionScale, h]

/-- C6 witness: a classifier rejecting everything and a field with
nonzero raw length and fraction still yield "not applicable". -/
theorem C6_not_applicable_witness :
    ResultField.TypeLength ⟨fun _ => false, fun _ => false⟩ ⟨0, 0, 7, 99, []⟩ = (0, false) ∧
    ResultField.TypePrecisionScale ⟨fun _ => false, fun _ => false⟩ ⟨0, 0, 7, 99, []⟩ =
      (0, 0, false) :=
  ⟨(C6_not_applicable ⟨fun _ => false, fun _ => false⟩ ⟨0, 0, 7, 99, []⟩).1 rfl,
   (C6_not_applicable ⟨fun _ => false, fun _ => false⟩ ⟨0, 0, 7, 99, []⟩).2 rfl⟩

/-- C8: SetLobReader always returns the capability error and leaves the
field unchanged, and lobReader reports no reader available. -/
theorem C8_setLobReader_capability_error (f : ResultField) (r : LobStream) :
    f.SetLobReader r = (f, Except.error "result field does not support lob readers") ∧
    f.lobReader = none :=
  ⟨rfl, rfl⟩

/-- C9: each part decode returns the Byte Cursor's sticky error state as
observed at the end of the decode: the result-set identifier and the
result-metadata decoders do so directly, and the result-data decoder does
so for every Row-Value collaborator that itself reports the cursor's
sticky error. -/
theorem C9_decode_returns_sticky_error :
    (∀ (s : ResultsetID) (rd : Reader), (s.read rd).2.2 = (s.read rd).2.1.err) ∧
    (∀ (n : Nat) (names : FieldNames) (rd : Reader),
      (resultMetadata.read n names rd).2 = (resultMetadata.read n names rd).1.2.2.err) ∧
    (∀ g : Nat → List ResultField → Reader → Reader × Bool,
      (∀ n fs rd, (g n fs rd).2 = (g n fs rd).1.err) →
      ∀ n fs rd, (resultset.read g n fs rd).2 = (resultset.read g n fs rd).1.err) := by
  refine ⟨fun s rd => rfl, fun n names rd => rfl, fun g hg n fs rd => ?_⟩
  simp only [resultset.read]
  by_cases h : (g n fs rd).2
  · simp [h, ← hg n fs rd]
  · simp [h, ← hg n fs rd]

/-- C9 witness: the result-data leg applied to a concrete collaborator
that reports the sticky error, on a cursor whose error flag is set. -/
theorem C9_decode_returns_sticky_error_witness :
    (resultset.read (fun _ _ rd => (rd, rd.err)) 0 [] ⟨[], 0, true⟩).2 =
      (resultset.read (fun _ _ rd => (rd, rd.err)) 0 [] ⟨[], 0, true⟩).1.err :=
  C9_decode_returns_sticky_error.2.2 (fun _ _ rd => (rd, rd.err)) (fun _ _ _ => rfl)
    0 [] ⟨[], 0, true⟩

/-- C10: Nullable is a strict equality test against OPTIONAL (0x02);
any other options value, including 0x03 with both bits set, reports not
nullable. -/
theorem C10_nullable_strict_equality (f : ResultField) :
    (f.Nullable = true ↔ f.columnOptions = coOptional) ∧
    (f.columnOptions ≠ coOptional → f.Nullable = false) ∧
    ResultField.Nullable ⟨3, 0, 0, 0, []⟩ = false := by
  refine ⟨by simp [ResultField.Nullable], fun h => ?_, by decide⟩
  simp [ResultField.Nullable]
  exact h

/-- C10 witness: the strict-equality statement evaluated at options byte
0x03 (both MANDATORY and OPTIONAL bits set). -/
theorem C10_nullable_strict_equality_witness :
    (⟨3, 0, 0, 0, []⟩ : ResultField).Nullable = false :=
  (C10_nullable_strict_equality ⟨3, 0, 0, 0, []⟩).2.1 (by decide)

/-- C4: decoding the bytes produced by encoding a result-set identifier
holding any 64-bit handle yields the handle again, the cursor ends in a
clean state, and encode never fails. -/
theorem C4_resultsetID_roundtrip (x : Nat) (hx : x < 2 ^ 64) (s0 : ResultsetID) :
    (ResultsetID.write ⟨x⟩ ⟨[]⟩).2 = none ∧
    (ResultsetID.read s0 ⟨(ResultsetID.write ⟨x⟩ ⟨[]⟩).1.data, 0, false⟩).1 = ⟨x⟩ ∧
    (ResultsetID.read s0 ⟨(ResultsetID.write ⟨x⟩ ⟨[]⟩).1.data, 0, false⟩).2.1.err = false := by
  have hx' : x < 18446744073709551616 := by
    calc x < 2 ^ 64 := hx
      _ = 18446744073709551616 := by norm_num
  have hdata : (ResultsetID.write ⟨x⟩ ⟨[]⟩).1.data = natToBytesBE 8 x := by
    simp [ResultsetID.write, Writer.writeUint64, Nat.mod_eq_of_lt hx']
  have hlen : (natToBytesBE 8 x).length = 8 := natToBytesBE_length 8 x
  have hexact := Reader.readBytes_exact (natToBytesBE 8 x) [] (natToBytesBE 8 x) 0 (by simp)
  rw [hlen] at hexact
  have h256 : (256 : Nat) ^ 8 = 2 ^ 64 := by norm_num
  have hround : bytesToNatBE (natToBytesBE 8 x) = x :=
    bytesToNatBE_roundtrip 8 x (by rw [h256]; exact hx)
  refine ⟨rfl, ?_, ?_⟩ <;>
    simp [ResultsetID.read, Reader.readUint64, hdata, hexact, hround]

/-- C4 witness: the round trip evaluated on handle 1 (the specification's
own scenario). -/
theorem C4_resultsetID_roundtrip_witness :
    (1 : Nat) < 2 ^ 64 ∧
    (ResultsetID.read ⟨0⟩ ⟨(ResultsetID.write ⟨1⟩ ⟨[]⟩).1.data, 0, false⟩).1 = ⟨1⟩ :=
  ⟨by norm_num, (C4_resultsetID_roundtrip 1 (by norm_num) ⟨0⟩).2.1⟩

/-- C7: setting the element count of a result-set identifier part is a
no-op, the reported element count is always 1, and decode consumes
exactly one unsigned 64-bit value (eight bytes) whatever count was set. -/
theorem C7_setNumArg_noop (n : Int) (s : ResultsetID) (rd : Reader)
    (he : rd.err = false) (hlen : rd.pos + 8 ≤ rd.data.length) :
    s.setNumArg n = s ∧
    s.numArg = 1 ∧
    (s.setNumArg n).read rd = s.read rd ∧
    (s.read rd).2.1 = ⟨rd.data, rd.pos + 8, false⟩ := by
  refine ⟨rfl, rfl, rfl, ?_⟩
  simp only [ResultsetID.read, Reader.readUint64]
  exact Reader.readBytes_ok 8 rd he hlen

/-- C7 witness: the no-op statement evaluated with element count 5 on an
eight-byte stream. -/
theorem C7_setNumArg_noop_witness :
    ((⟨7⟩ : ResultsetID).setNumArg 5 = ⟨7⟩) ∧
    ((⟨7⟩ : ResultsetID).read ⟨List.replicate 8 0, 0, false⟩).2.1 =
      ⟨List.replicate 8 0, 0 + 8, false⟩ :=
  ⟨(C7_setNumArg_noop 5 ⟨7⟩ ⟨List.replicate 8 0, 0, false⟩ rfl (by simp)).1,
   (C7_setNumArg_noop 5 ⟨7⟩ ⟨List.replicate 8 0, 0, false⟩ rfl (by simp)).2.2.2⟩

/-- C2 counterexample: decoding one column descriptor does not consume 18
bytes; on a concrete 30-byte stream the cursor ends at position 24. -/
theorem C2_counterexample :
    (ResultField.read ⟨[], []⟩ ⟨List.replicate 30 0, 0, false⟩).2.2.pos = 24 ∧
    ¬ (ResultField.read ⟨[], []⟩ ⟨List.replicate 30 0, 0, false⟩).2.2.pos = 18 := by
  decide

/-- C2 amended: decoding one column descriptor consumes exactly 24 bytes:
1 byte options, 1 byte type code, 2 bytes signed fraction, 2 bytes signed
length, 2 bytes filler (skipped, never interpreted — the result does not
depend on them), and four 4-byte unsigned offsets registered with the
shared Name Table in the fixed order table, schema, column, display name. -/
theorem drop_step {data : List Nat} {p b : Nat} {tl : List Nat}
    (h : data.drop p = b :: tl) : data.drop (p + 1) = tl := by
  have h1 : data.drop (p + 1) = (data.drop p).drop 1 := by rw [List.drop_drop]
  rw [h1, h]
  rfl

theorem Reader.readInt8_exact (data : List Nat) (p b : Nat) (tl : List Nat)
    (h : data.drop p = b :: tl) :
    Reader.readInt8 ⟨data, p, false⟩ = (byteToInt8 b, ⟨data, p + 1, false⟩) := by
  simp [Reader.readInt8, Reader.readByte, h]

theorem Reader.readInt16_exact (data : List Nat) (p a b : Nat) (tl : List Nat)
    (h : data.drop p = a :: b :: tl) :
    Reader.readInt16 ⟨data, p, false⟩ = (bytesToInt16 a b, ⟨data, p + 1 + 1, false⟩) := by
  have h2 : data.drop (p + 1) = b :: tl := drop_step h
  simp [Reader.readInt16, Reader.readByte, h, h2]

theorem Reader.skip_two_exact (data : List Nat) (p a b : Nat) (tl : List Nat)
    (h : data.drop p = a :: b :: tl) :
    Reader.skip 2 ⟨data, p, false⟩ = ⟨data, p + 1 + 1, false⟩ := by
  have h2 := Reader.readBytes_exact [a, b] tl data p h
  simp at h2
  simp [Reader.skip, h2, Reader.mk.injEq]

theorem Reader.readUint32_exact (data : List Nat) (p a b c d : Nat) (tl : List Nat)
    (h : data.drop p = a :: b :: c :: d :: tl) :
    Reader.readUint32 ⟨data, p, false⟩ =
      (bytesToNatBE [a, b, c, d], ⟨data, p + 1 + 1 + 1 + 1, false⟩) := by
  have h4 := Reader.readBytes_exact [a, b, c, d] tl data p h
  simp at h4
  simp [Reader.readUint32, h4, Prod.mk.injEq, Reader.mk.injEq]

/-- C2 amended: decoding one column descriptor consumes exactly 24 bytes:
1 byte options, 1 byte type code, 2 bytes signed fraction, 2 bytes signed
length, 2 bytes filler (skipped, never interpreted — the result does not
depend on them), and four 4-byte unsigned offsets registered with the
shared Name Table in the fixed order table, schema, column, display name. -/
theorem C2_descriptor_layout (b0 b1 b2 b3 b4 b5 b6 b7 : Nat)
    (c0 c1 c2 c3 d0 d1 d2 d3 e0 e1 e2 e3 g0 g1 g2 g3 : Nat)
    (rest data : List Nat) (p : Nat) (names : FieldNames)
    (h : data.drop p = [b0, b1, b2, b3, b4, b5, b6, b7, c0, c1, c2, c3, d0, d1, d2, d3,
      e0, e1, e2, e3, g0, g1, g2, g3] ++ rest) :
    ResultField.read names ⟨data, p, false⟩ =
    (⟨byteToInt8 b0, byteToInt8 b1, bytesToInt16 b2 b3, bytesToInt16 b4 b5,
      [bytesToNatBE [c0, c1, c2, c3], bytesToNatBE [d0, d1, d2, d3],
        bytesToNatBE [e0, e1, e2, e3], bytesToNatBE [g0, g1, g2, g3]]⟩,
      (((names.addOffset (bytesToNatBE [c0, c1, c2, c3])).addOffset
          (bytesToNatBE [d0, d1, d2, d3])).addOffset
          (bytesToNatBE [e0, e1, e2, e3])).addOffset (bytesToNatBE [g0, g1, g2, g3]),
      ⟨data, p + 24, false⟩) := by
  have t1 := drop_step h
  have t2 := drop_step t1
  have t3 := drop_step t2
  have t4 := drop_step t3
  have t5 := drop_step t4
  have t6 := drop_step t5
  have t7 := drop_step t6
  have t8 := drop_step t7
  have t9 := drop_step t8
  have t10 := drop_step t9
  have t11 := drop_step t10
  have t12 := drop_step t11
  have t13 := drop_step t12
  have t14 := drop_step t13
  have t15 := drop_step t14
  have t16 := drop_step t15
  have t17 := drop_step t16
  have t18 := drop_step t17
  have t19 := drop_step t18
  have t20 := drop_step t19
  have r1 := Reader.readInt8_exact data p b0 _ h
  have r2 := Reader.readInt8_exact data (p + 1) b1 _ t1
  have r3 := Reader.readInt16_exact data (p + 1 + 1) b2 b3 _ t2
  have r4 := Reader.readInt16_exact data (p + 1 + 1 + 1 + 1) b4 b5 _ t4
  have r5 := Reader.skip_two_exact data (p + 1 + 1 + 1 + 1 + 1 + 1) b6 b7 _ t6
  have r6 := Reader.readUint32_exact data (p + 1 + 1 + 1 + 1 + 1 + 1 + 1 + 1)
    c0 c1 c2 c3 _ t8
  have r7 := Reader.readUint32_exact data (p + 1 + 1 + 1 + 1 + 1 + 1 + 1 + 1 + 1 + 1 + 1 + 1)
    d0 d1 d2 d3 _ t12
  have r8 := Reader.readUint32_exact data
    (p + 1 + 1 + 1 + 1 + 1 + 1 + 1 + 1 + 1 + 1 + 1 + 1 + 1 + 1 + 1 + 1)
    e0 e1 e2 e3 _ t16
  have r9 := Reader.readUint32_exact data
    (p + 1 + 1 + 1 + 1 + 1 + 1 + 1 + 1 + 1 + 1 + 1 + 1 + 1 + 1 + 1 + 1 + 1 + 1 + 1 + 1)
    g0 g1 g2 g3 _ t20
  simp only [ResultField.read, r1, r2, r3, r4, r5, r6, r7, r8, r9]

/-- C2 witness: the amended layout theorem evaluated on a concrete
24-byte descriptor. -/
theorem C2_descriptor_layout_witness :
    (ResultField.read ⟨[], []⟩
        ⟨[2, 9, 0, 3, 0, 5, 7, 7, 0, 0, 0, 1, 0, 0, 0, 2, 0, 0, 0, 3, 0, 0, 0, 4],
          0, false⟩).2.2.pos = 0 + 24 :=
  congrArg (fun q => q.2.2.pos)
    (C2_descriptor_layout 2 9 0 3 0 5 7 7 0 0 0 1 0 0 0 2 0 0 0 3 0 0 0 4 []
      [2, 9, 0, 3, 0, 5, 7, 7, 0, 0, 0, 1, 0, 0, 0, 2, 0, 0, 0, 3, 0, 0, 0, 4]
      0 ⟨[], []⟩ (by simp))

/-- The source's resolution fold and the specification-worded fold agree
whenever every visited offset is an unsigned 32-bit value at or beyond
the running position (the source keeps a `uint32` position, the
specification a plain counter, hence the modulus on the left). -/
theorem resolve_foldl_eq (os : List Nat) :
    ∀ (pos : Nat) (names : FieldNames) (rd : Reader),
      stepsOk pos rd os = true →
      ((os.foldl resolveStep (names, pos % 4294967296, rd)).1 =
          (os.foldl resolveStepClaim (names, pos, rd)).1 ∧
        (os.foldl resolveStep (names, pos % 4294967296, rd)).2.2 =
          (os.foldl resolveStepClaim (names, pos, rd)).2.2) := by
  induction os with
  | nil => intro pos names rd _; exact ⟨rfl, rfl⟩
  | cons o os ih =>
    intro pos names rd hok
    simp only [stepsOk, Bool.and_eq_true, decide_eq_true_eq] at hok
    obtain ⟨⟨h1, h2⟩, h3⟩ := hok
    have hpos : pos % 4294967296 = pos := Nat.mod_eq_of_lt (lt_of_le_of_lt h1 h2)
    have hdiff : (o % 4294967296 + (4294967296 - pos)) % 4294967296 = o - pos := by
      omega
    by_cases hc : pos < o
    · have hd : 0 < o - pos := by omega
      rw [if_pos hc] at h3
      have hstep : resolveStep (names, pos % 4294967296, rd) o =
          (names.setName o (readShortUtf8 (rd.skip (o - pos))).1,
            (pos + 1 + (readShortUtf8 (rd.skip (o - pos))).2.1) % 4294967296,
            (readShortUtf8 (rd.skip (o - pos))).2.2) := by
        simp only [resolveStep, hdiff, hpos, if_pos hd]
      have hstepc : resolveStepClaim (names, pos, rd) o =
          (names.setName o (readShortUtf8 (rd.skip (o - pos))).1,
            pos + 1 + (readShortUtf8 (rd.skip (o - pos))).2.1,
            (readShortUtf8 (rd.skip (o - pos))).2.2) := by
        simp only [resolveStepClaim, if_pos hc]
      rw [List.foldl_cons, List.foldl_cons, hstep, hstepc]
      exact ih _ _ _ h3
    · have hd : ¬ 0 < o - pos := by omega
      rw [if_neg hc] at h3
      have hstep : resolveStep (names, pos % 4294967296, rd) o =
          (names.setName o (readShortUtf8 rd).1,
            (pos + 1 + (readShortUtf8 rd).2.1) % 4294967296,
            (readShortUtf8 rd).2.2) := by
        simp only [resolveStep, hdiff, hpos, if_neg hd]
      have hstepc : resolveStepClaim (names, pos, rd) o =
          (names.setName o (readShortUtf8 rd).1,
            pos + 1 + (readShortUtf8 rd).2.1,
            (readShortUtf8 rd).2.2) := by
        simp only [resolveStepClaim, if_neg hc]
      rw [List.foldl_cons, List.foldl_cons, hstep, hstepc]
      exact ih _ _ _ h3

/-- C1: phase 2 of the result-metadata decode visits the registered
offsets in ascending numeric order (the visited list is sorted and is a
permutation of the registered offsets) with a running position counter
starting at 0, and — whenever the offsets never fall behind the running
position, as the server's contiguous ascending layout guarantees — it
behaves exactly as the specification words it: for each offset, if the
offset exceeds the position it skips the difference, then reads one
length-prefixed short string, stores it keyed by that offset, and
advances the position by one plus the length just read. -/
theorem C1_name_resolution_follows_spec (names : FieldNames) (rd : Reader)
    (h : stepsOk 0 rd names.sortOffsets = true) :
    names.sortOffsets.Sorted (· ≤ ·) ∧
    names.sortOffsets.Perm names.offsets ∧
    (resolveNames names rd).1 = (resolveNamesClaim names rd).1 ∧
    (resolveNames names rd).2.2 = (resolveNamesClaim names rd).2.2 := by
  have hcore := resolve_foldl_eq names.sortOffsets 0 names rd h
  refine ⟨?_, ?_, ?_, ?_⟩
  · simpa [FieldNames.sortOffsets] using
      List.sorted_insertionSort (· ≤ ·) names.offsets
  · simpa [FieldNames.sortOffsets] using
      List.perm_insertionSort (· ≤ ·) names.offsets
  · simpa [resolveNames, resolveNamesClaim] using hcore.1
  · simpa [resolveNames, resolveNamesClaim] using hcore.2

/-- C1 witness: resolution of a two-offset table over the name block
consisting of the string "ab" at offset 0, one padding byte, and the
string "d" at offset 4. -/
theorem C1_name_resolution_follows_spec_witness :
    stepsOk 0 ⟨[2, 97, 98, 99, 1, 100], 0, false⟩
        (FieldNames.sortOffsets ⟨[4, 0], []⟩) = true ∧
    (resolveNames ⟨[4, 0], []⟩ ⟨[2, 97, 98, 99, 1, 100], 0, false⟩).1 =
      (resolveNamesClaim ⟨[4, 0], []⟩ ⟨[2, 97, 98, 99, 1, 100], 0, false⟩).1 :=
  ⟨by decide,
    (C1_name_resolution_follows_spec ⟨[4, 0], []⟩ ⟨[2, 97, 98, 99, 1, 100], 0, false⟩
      (by decide)).2.2.1⟩

/-- The resolution fold never reads the registered-offset list of its
running state, and its position and cursor never depend on the state's
name table at all. -/
theorem resolve_fold_entries (os : List Nat) :
    ∀ (pos : Nat) (rd : Reader) (off1 off2 : List Nat) (e : List (Nat × List Nat)),
      ((os.foldl resolveStep (⟨off1, e⟩, pos, rd)).1.entries =
          (os.foldl resolveStep (⟨off2, e⟩, pos, rd)).1.entries ∧
        (os.foldl resolveStep (⟨off1, e⟩, pos, rd)).2 =
          (os.foldl resolveStep (⟨off2, e⟩, pos, rd)).2) := by
  induction os with
  | nil => intro pos rd off1 off2 e; exact ⟨rfl, rfl⟩
  | cons o os ih =>
    intro pos rd off1 off2 e
    rw [List.foldl_cons, List.foldl_cons]
    simp only [resolveStep, FieldNames.setName]
    exact ih _ _ _ _ _

theorem FieldNames.name_congr {a b : FieldNames} (h : a.entries = b.entries) (o : Nat) :
    a.name o = b.name o := by
  simp [FieldNames.name, h]

/-- C3: name resolution is invariant to column declaration order — for
any two name tables registering the same offsets (in any order) with the
same resolved entries, resolving over the same underlying name block
assigns identical strings to each offset. -/
theorem C3_resolution_invariant_declaration_order (n1 n2 : FieldNames) (rd : Reader)
    (hperm : n1.offsets.Perm n2.offsets) (hent : n1.entries = n2.entries) (o : Nat) :
    (resolveNames n1 rd).1.name o = (resolveNames n2 rd).1.name o := by
  obtain ⟨off1, e1⟩ := n1
  obtain ⟨off2, e2⟩ := n2
  cases hent
  have hsort : FieldNames.sortOffsets ⟨off1, e1⟩ = FieldNames.sortOffsets ⟨off2, e1⟩ :=
    List.eq_of_perm_of_sorted
      ((List.perm_insertionSort (· ≤ ·) off1).trans
        (hperm.trans (List.perm_insertionSort (· ≤ ·) off2).symm))
      (List.sorted_insertionSort (· ≤ ·) off1)
      (List.sorted_insertionSort (· ≤ ·) off2)
  simp only [resolveNames]
  rw [hsort]
  exact FieldNames.name_congr
    (resolve_fold_entries (FieldNames.sortOffsets ⟨off2, e1⟩) 0 rd off1 off2 e1).1 o

/-- C3 witness: two registration orders of the offsets 0 and 4 resolve
offset 4 to the same string. -/
theorem C3_resolution_invariant_declaration_order_witness :
    (FieldNames.offsets ⟨[0, 4], []⟩).Perm (FieldNames.offsets ⟨[4, 0], []⟩) ∧
    (resolveNames ⟨[0, 4], []⟩ ⟨[2, 97, 98, 99, 1, 100], 0, false⟩).1.name 4 =
      (resolveNames ⟨[4, 0], []⟩ ⟨[2, 97, 98, 99, 1, 100], 0, false⟩).1.name 4 :=
  ⟨List.Perm.swap 4 0 [],
    C3_resolution_invariant_declaration_order ⟨[0, 4], []⟩ ⟨[4, 0], []⟩
      ⟨[2, 97, 98, 99, 1, 100], 0, false⟩ (List.Perm.swap 4 0 []) rfl 4⟩

end Hdb
